import Mathlib

/-!
Shallow embedding of `pyalgotrade/stratanalyzer/trades.py` (the `Trades`
strategy analyzer) and verification of its specification.

Python floats are modelled as `Rat`; share counts as `Int`; the per-instrument
dictionary `self.__posTrackers` as an association list keyed by `String`.

The collaborator `pyalgotrade.stratanalyzer.returns.PositionTracker` is not part
of the analyzed source tree; it is modelled from the spec (see
`PositionTracker` below): its observable state is the signed share count and the
sequence of buy/sell operations since the last rebase, with `getNetProfit` /
`getReturn` kept abstract as functions of that accumulated basis.
-/

namespace Trades

/-- One buy/sell operation issued to the position tracker. -/
structure TrackerOp where
  isBuy : Bool
  quantity : Int
  price : Rat
  commission : Rat
  deriving DecidableEq

/-- Modelled from the spec: the external position tracker
(`pyalgotrade.stratanalyzer.returns.PositionTracker`, not in the analyzed
sources).  `shares` is the signed net open quantity; `ops` is the internal
cost/commission basis, recorded as the operations applied since the last
rebase.  The spec treats the basis as opaque, so net profit and net return are
modelled as abstract functions of `ops` (see `ProfitFn`). -/
structure PositionTracker where
  shares : Int
  ops : List TrackerOp
  deriving DecidableEq

/-- A fresh tracker: flat position, empty basis. -/
def PositionTracker.new : PositionTracker :=
  { shares := 0, ops := [] }

/-- Tracker `buy(quantity, price, commission)`: increases the signed position by
`quantity`, absorbing cost and commission into the basis. -/
def PositionTracker.buy (t : PositionTracker) (quantity : Int) (price commission : Rat) :
    PositionTracker :=
  { shares := t.shares + quantity
    ops := t.ops ++ [⟨true, quantity, price, commission⟩] }

/-- Tracker `sell(quantity, price, commission)`: decreases the signed position by
`quantity`, absorbing cost and commission into the basis. -/
def PositionTracker.sell (t : PositionTracker) (quantity : Int) (price commission : Rat) :
    PositionTracker :=
  { shares := t.shares - quantity
    ops := t.ops ++ [⟨false, quantity, price, commission⟩] }

/-- Tracker `update(markPrice)`: rebases the internal state (clears the realized
basis) at the given mark; the share count is unchanged. -/
def PositionTracker.rebase (t : PositionTracker) (price : Rat) : PositionTracker :=
  { shares := t.shares, ops := [] }

/-- The type of `getNetProfit` / `getReturn`: a function of the accumulated
basis and the mark price. -/
abbrev ProfitFn := List TrackerOp → Rat → Rat

/-- The accumulator store of the `Trades` analyzer: the fields initialized in
`Trades.__init__` other than the tracker dictionary. -/
structure AccumState where
  all : List Rat
  profits : List Rat
  losses : List Rat
  allReturns : List Rat
  positiveReturns : List Rat
  negativeReturns : List Rat
  evenTrades : Nat
  deriving DecidableEq

/-- The empty accumulator store (`Trades.__init__`). -/
def AccumState.init : AccumState :=
  { all := [], profits := [], losses := [], allReturns := []
    positiveReturns := [], negativeReturns := [], evenTrades := 0 }

/-- The accumulator part of `Trades.__updateTrades`: reads net profit and net
return at mark price 0, classifies the completed trade and appends it. -/
def recordTrade (pf rf : ProfitFn) (acc : AccumState) (posTracker : PositionTracker) :
    AccumState :=
  let price : Rat := 0
  let netProfit := pf posTracker.ops price
  let netReturn := rf posTracker.ops price
  let acc1 :=
    if 0 < netProfit then
      { acc with profits := acc.profits ++ [netProfit]
                 positiveReturns := acc.positiveReturns ++ [netReturn] }
    else if netProfit < 0 then
      { acc with losses := acc.losses ++ [netProfit]
                 negativeReturns := acc.negativeReturns ++ [netReturn] }
    else
      { acc with evenTrades := acc.evenTrades + 1 }
  { acc1 with all := acc1.all ++ [netProfit]
              allReturns := acc1.allReturns ++ [netReturn] }

/-- Source `Trades.__updateTrades`: asserts that the tracker is flat (modelled by
returning `none` on assertion failure), records the completed trade, and
rebases the tracker at the placeholder mark price 0. -/
def updateTrades (pf rf : ProfitFn) (acc : AccumState) (posTracker : PositionTracker) :
    Option (AccumState × PositionTracker) :=
  let price : Rat := 0
  if posTracker.shares = 0 then
    some (recordTrade pf rf acc posTracker, posTracker.rebase price)
  else
    none

/-- Source `Trades.__updatePosTracker`: classifies the signed fill `quantity` against
the tracker's current position and issues one or two buy/sell operations,
calling `updateTrades` whenever the position returns to zero.  `none` means the
assertion inside `updateTrades` fired. -/
def updatePosTracker (pf rf : ProfitFn) (acc : AccumState) (posTracker : PositionTracker)
    (price commission : Rat) (quantity : Int) : Option (AccumState × PositionTracker) :=
  if 0 < posTracker.shares then -- Current position is long
    if 0 < quantity then -- Increase long position
      some (acc, posTracker.buy quantity price commission)
    else if posTracker.shares + quantity = 0 then -- Exit long.
      updateTrades pf rf acc (posTracker.sell posTracker.shares price commission)
    else if 0 < posTracker.shares + quantity then -- Sell some shares.
      some (acc, posTracker.sell (quantity * -1) price commission)
    else -- Exit long and enter short. Use proportional commissions.
      match updateTrades pf rf acc
          (posTracker.sell posTracker.shares price (commission / (posTracker.shares : Rat))) with
      | some (acc1, t1) =>
        some (acc1, t1.sell ((posTracker.shares + quantity) * -1) price
          (commission / (((posTracker.shares + quantity) * -1 : Int) : Rat)))
      | none => none
  else if posTracker.shares < 0 then -- Current position is short
    if quantity < 0 then -- Increase short position
      some (acc, posTracker.sell (quantity * -1) price commission)
    else if posTracker.shares + quantity = 0 then -- Exit short.
      updateTrades pf rf acc (posTracker.buy (posTracker.shares * -1) price commission)
    else if posTracker.shares + quantity < 0 then -- Re-buy some shares.
      some (acc, posTracker.buy quantity price commission)
    else -- Exit short and enter long. Use proportional commissions.
      match updateTrades pf rf acc
          (posTracker.buy (posTracker.shares * -1) price
            (commission / ((posTracker.shares * -1 : Int) : Rat))) with
      | some (acc1, t1) =>
        some (acc1, t1.buy (posTracker.shares + quantity) price
          (commission / ((posTracker.shares + quantity : Int) : Rat)))
      | none => none
  else if 0 < quantity then
    some (acc, posTracker.buy quantity price commission)
  else
    some (acc, posTracker.sell (quantity * -1) price commission)

/-- The four recognized order actions, plus a case standing for any value
outside the recognized set. -/
inductive Action where
  | buy
  | buyToCover
  | sell
  | sellShort
  | unrecognized
  deriving DecidableEq

/-- A (possibly filled) order-update event, restricted to the fields the
analyzer reads. -/
structure Order where
  isFilled : Bool
  instrument : String
  price : Rat
  commission : Rat
  quantity : Int
  action : Action
  deriving DecidableEq

/-- The signed quantity derived from the action tag in `__onOrderUpdate`:
`none` models the `assert(False)` branch for an unknown action. -/
def signedQty (action : Action) (quantity : Int) : Option Int :=
  match action with
  | .buy | .buyToCover => some quantity
  | .sell | .sellShort => some (quantity * -1)
  | .unrecognized => none

/-- Looks an instrument up in the tracker dictionary. -/
def lookupTracker : List (String × PositionTracker) → String → Option PositionTracker
  | [], _ => none
  | (k, t) :: rest, instrument =>
    if k = instrument then some t else lookupTracker rest instrument

/-- Dictionary assignment `self.__posTrackers[instrument] = posTracker`:
replaces an existing binding or appends a new one. -/
def setTracker : List (String × PositionTracker) → String → PositionTracker →
    List (String × PositionTracker)
  | [], instrument, t => [(instrument, t)]
  | (k, t0) :: rest, instrument, t =>
    if k = instrument then (instrument, t) :: rest
    else (k, t0) :: setTracker rest instrument t

/-- The whole analyzer state: the accumulator store plus the per-instrument
tracker dictionary. -/
structure TradesState where
  acc : AccumState
  posTrackers : List (String × PositionTracker)
  deriving DecidableEq

/-- Source `Trades.__init__`. -/
def TradesState.init : TradesState :=
  { acc := AccumState.init, posTrackers := [] }

/-- The "get or create the tracker for this instrument" step of
`__onOrderUpdate`: returns the tracker to use together with the (possibly
extended) dictionary. -/
def ensureTracker (trackers : List (String × PositionTracker)) (instrument : String) :
    PositionTracker × List (String × PositionTracker) :=
  match lookupTracker trackers instrument with
  | some t => (t, trackers)
  | none => (PositionTracker.new, setTracker trackers instrument PositionTracker.new)

/-- The two fatal conditions of the analyzer: an unknown action tag in
`__onOrderUpdate`, and the `shares == 0` assertion in `__updateTrades`. -/
inductive Fatal where
  | unknownAction
  | trackerNotFlat
  deriving DecidableEq

/-- Result of processing one event (or a sequence of events): either the new
state, or a fatal abort together with the state at the moment of the abort. -/
inductive ProcResult where
  | ok : TradesState → ProcResult
  | fatal : Fatal → TradesState → ProcResult
  deriving DecidableEq

/-- Source `Trades.__onOrderUpdate`: ignores non-filled orders; otherwise looks up or
creates the instrument's tracker, derives the signed quantity from the action
tag (aborting on an unknown tag, after the tracker has been created), and runs
`updatePosTracker`. -/
def onOrderUpdate (pf rf : ProfitFn) (st : TradesState) (order : Order) : ProcResult :=
  if order.isFilled = false then
    .ok st
  else
    match signedQty order.action order.quantity with
    | none =>
      .fatal .unknownAction
        { st with posTrackers := (ensureTracker st.posTrackers order.instrument).2 }
    | some quantity =>
      match updatePosTracker pf rf st.acc (ensureTracker st.posTrackers order.instrument).1
          order.price order.commission quantity with
      | some (acc1, t1) =>
        .ok { acc := acc1
              posTrackers := setTracker (ensureTracker st.posTrackers order.instrument).2
                order.instrument t1 }
      | none =>
        .fatal .trackerNotFlat
          { st with posTrackers := (ensureTracker st.posTrackers order.instrument).2 }

/-- Processes a sequence of order-update events in order, stopping at the
first fatal abort. -/
def processAll (pf rf : ProfitFn) (st : TradesState) : List Order → ProcResult
  | [] => .ok st
  | o :: rest =>
    match onOrderUpdate pf rf st o with
    | .ok st1 => processAll pf rf st1 rest
    | r => r

/-- The state reached by a processing run, whether it ended normally or in a
fatal abort. -/
def resultState : ProcResult → TradesState
  | .ok st => st
  | .fatal _ st => st

/-- Source `Trades.getCount`: total number of completed trades. -/
def TradesState.getCount (st : TradesState) : Nat :=
  st.acc.all.length

/-- Source `Trades.getProfitableCount`. -/
def TradesState.getProfitableCount (st : TradesState) : Nat :=
  st.acc.profits.length

/-- Source `Trades.getUnprofitableCount`. -/
def TradesState.getUnprofitableCount (st : TradesState) : Nat :=
  st.acc.losses.length

/-- Source `Trades.getEvenCount`. -/
def TradesState.getEvenCount (st : TradesState) : Nat :=
  st.acc.evenTrades

/-- The net open share count the analyzer holds for an instrument (0 when the
instrument has no ledger entry yet). -/
def trackerShares (st : TradesState) (instrument : String) : Int :=
  match lookupTracker st.posTrackers instrument with
  | some t => t.shares
  | none => 0

/-- The signed delta a well-formed filled order contributes (0 is returned for
the unrecognized tag, which is only used under a well-formedness hypothesis). -/
def signedDelta (o : Order) : Int :=
  match o.action with
  | .buy | .buyToCover => o.quantity
  | .sell | .sellShort => o.quantity * -1
  | .unrecognized => 0

/-- A well-formed filled order: recognized action and positive quantity. -/
def wellFormed (o : Order) : Prop :=
  o.isFilled = true ∧ o.action ≠ .unrecognized ∧ 0 < o.quantity

instance (o : Order) : Decidable (wellFormed o) := by
  unfold wellFormed
  infer_instance

/-- Whether a fill from position `s` with signed delta `q` drives the share
count to exactly 0 at the end of some leg: either the fill closes the position
exactly, or it flips its sign (in which case the first leg ends at 0). -/
def completionLeg (s q : Int) : Bool :=
  decide ((s ≠ 0 ∧ s + q = 0) ∨ (0 < s ∧ s + q < 0) ∨ (s < 0 ∧ 0 < s + q))

/-- Predicate `neverFlat s ds = true` holds when replaying the signed deltas `ds` from
position `s` never drives the share count to 0 at any leg boundary. -/
def neverFlat : Int → List Int → Bool
  | _, [] => true
  | s, d :: ds => !completionLeg s d && neverFlat (s + d) ds

/-! ### Basic equations -/

@[simp]
theorem PositionTracker.shares_buy (t : PositionTracker) (q : Int) (p c : Rat) :
    (t.buy q p c).shares = t.shares + q := rfl

@[simp]
theorem PositionTracker.shares_sell (t : PositionTracker) (q : Int) (p c : Rat) :
    (t.sell q p c).shares = t.shares - q := rfl

@[simp]
theorem PositionTracker.shares_rebase (t : PositionTracker) (p : Rat) :
    (t.rebase p).shares = t.shares := rfl

theorem updateTrades_eq (pf rf : ProfitFn) (acc : AccumState) (t : PositionTracker)
    (h : t.shares = 0) :
    updateTrades pf rf acc t = some (recordTrade pf rf acc t, t.rebase 0) := by
  simp [updateTrades, h]

/-- Lemma: `recordTrade` appends exactly one entry to `all` and to `allReturns`, and
exactly one of: an entry to `profits` and `positiveReturns`, an entry to
`losses` and `negativeReturns`, or an increment of `evenTrades`. -/
theorem recordTrade_lengths (pf rf : ProfitFn) (acc : AccumState) (t : PositionTracker) :
    (recordTrade pf rf acc t).all.length = acc.all.length + 1 ∧
    (recordTrade pf rf acc t).allReturns.length = acc.allReturns.length + 1 ∧
    (recordTrade pf rf acc t).profits.length + (recordTrade pf rf acc t).losses.length +
        (recordTrade pf rf acc t).evenTrades
      = acc.profits.length + acc.losses.length + acc.evenTrades + 1 ∧
    (recordTrade pf rf acc t).positiveReturns.length = (recordTrade pf rf acc t).profits.length -
        acc.profits.length + acc.positiveReturns.length ∧
    (recordTrade pf rf acc t).negativeReturns.length = (recordTrade pf rf acc t).losses.length -
        acc.losses.length + acc.negativeReturns.length := by
  simp only [recordTrade]
  split_ifs <;> simp <;> omega

/-! ### Case analysis of `updatePosTracker` -/

theorem updatePosTracker_flat_buy (pf rf : ProfitFn) (acc : AccumState) (t : PositionTracker)
    (p c : Rat) (q : Int) (hs : t.shares = 0) (hq : 0 < q) :
    updatePosTracker pf rf acc t p c q = some (acc, t.buy q p c) := by
  simp [updatePosTracker, hs, hq]

theorem updatePosTracker_flat_sell (pf rf : ProfitFn) (acc : AccumState) (t : PositionTracker)
    (p c : Rat) (q : Int) (hs : t.shares = 0) (hq : ¬ 0 < q) :
    updatePosTracker pf rf acc t p c q = some (acc, t.sell (q * -1) p c) := by
  simp [updatePosTracker, hs, hq]

theorem updatePosTracker_long_add (pf rf : ProfitFn) (acc : AccumState) (t : PositionTracker)
    (p c : Rat) (q : Int) (hs : 0 < t.shares) (hq : 0 < q) :
    updatePosTracker pf rf acc t p c q = some (acc, t.buy q p c) := by
  simp [updatePosTracker, hs, hq]

theorem updatePosTracker_long_exit (pf rf : ProfitFn) (acc : AccumState) (t : PositionTracker)
    (p c : Rat) (q : Int) (hs : 0 < t.shares) (hq : t.shares + q = 0) :
    updatePosTracker pf rf acc t p c q =
      some (recordTrade pf rf acc (t.sell t.shares p c), (t.sell t.shares p c).rebase 0) := by
  have h1 : ¬ 0 < q := by omega
  rw [updatePosTracker, if_pos hs, if_neg h1, if_pos hq,
    updateTrades_eq _ _ _ _ (by simp)]

theorem updatePosTracker_long_reduce (pf rf : ProfitFn) (acc : AccumState) (t : PositionTracker)
    (p c : Rat) (q : Int) (hs : 0 < t.shares) (hq : ¬ 0 < q) (hn : 0 < t.shares + q) :
    updatePosTracker pf rf acc t p c q = some (acc, t.sell (q * -1) p c) := by
  have h1 : ¬ t.shares + q = 0 := by omega
  rw [updatePosTracker, if_pos hs, if_neg hq, if_neg h1, if_pos hn]

theorem updatePosTracker_long_flip (pf rf : ProfitFn) (acc : AccumState) (t : PositionTracker)
    (p c : Rat) (q : Int) (hs : 0 < t.shares) (hn : t.shares + q < 0) :
    updatePosTracker pf rf acc t p c q =
      some (recordTrade pf rf acc (t.sell t.shares p (c / (t.shares : Rat))),
        ((t.sell t.shares p (c / (t.shares : Rat))).rebase 0).sell ((t.shares + q) * -1) p
          (c / (((t.shares + q) * -1 : Int) : Rat))) := by
  have h1 : ¬ 0 < q := by omega
  have h2 : ¬ t.shares + q = 0 := by omega
  have h3 : ¬ 0 < t.shares + q := by omega
  rw [updatePosTracker, if_pos hs, if_neg h1, if_neg h2, if_neg h3,
    updateTrades_eq _ _ _ _ (by simp)]

theorem updatePosTracker_short_add (pf rf : ProfitFn) (acc : AccumState) (t : PositionTracker)
    (p c : Rat) (q : Int) (hs : t.shares < 0) (hq : q < 0) :
    updatePosTracker pf rf acc t p c q = some (acc, t.sell (q * -1) p c) := by
  have h0 : ¬ 0 < t.shares := by omega
  rw [updatePosTracker, if_neg h0, if_pos hs, if_pos hq]

theorem updatePosTracker_short_exit (pf rf : ProfitFn) (acc : AccumState) (t : PositionTracker)
    (p c : Rat) (q : Int) (hs : t.shares < 0) (hq : t.shares + q = 0) :
    updatePosTracker pf rf acc t p c q =
      some (recordTrade pf rf acc (t.buy (t.shares * -1) p c),
        (t.buy (t.shares * -1) p c).rebase 0) := by
  have h0 : ¬ 0 < t.shares := by omega
  have h1 : ¬ q < 0 := by omega
  rw [updatePosTracker, if_neg h0, if_pos hs, if_neg h1, if_pos hq,
    updateTrades_eq _ _ _ _ (by simp)]

theorem updatePosTracker_short_reduce (pf rf : ProfitFn) (acc : AccumState) (t : PositionTracker)
    (p c : Rat) (q : Int) (hs : t.shares < 0) (hq : ¬ q < 0) (hn : t.shares + q < 0) :
    updatePosTracker pf rf acc t p c q = some (acc, t.buy q p c) := by
  have h0 : ¬ 0 < t.shares := by omega
  have h1 : ¬ t.shares + q = 0 := by omega
  rw [updatePosTracker, if_neg h0, if_pos hs, if_neg hq, if_neg h1, if_pos hn]

theorem updatePosTracker_short_flip (pf rf : ProfitFn) (acc : AccumState) (t : PositionTracker)
    (p c : Rat) (q : Int) (hs : t.shares < 0) (hn : 0 < t.shares + q) :
    updatePosTracker pf rf acc t p c q =
      some (recordTrade pf rf acc (t.buy (t.shares * -1) p (c / ((t.shares * -1 : Int) : Rat))),
        ((t.buy (t.shares * -1) p (c / ((t.shares * -1 : Int) : Rat))).rebase 0).buy
          (t.shares + q) p (c / ((t.shares + q : Int) : Rat))) := by
  have h0 : ¬ 0 < t.shares := by omega
  have h1 : ¬ q < 0 := by omega
  have h2 : ¬ t.shares + q = 0 := by omega
  have h3 : ¬ t.shares + q < 0 := by omega
  rw [updatePosTracker, if_neg h0, if_pos hs, if_neg h1, if_neg h2, if_neg h3,
    updateTrades_eq _ _ _ _ (by simp)]

theorem completionLeg_true {s q : Int} :
    completionLeg s q = true ↔
      (s ≠ 0 ∧ s + q = 0) ∨ (0 < s ∧ s + q < 0) ∨ (s < 0 ∧ 0 < s + q) := by
  simp [completionLeg]

theorem completionLeg_false {s q : Int} :
    completionLeg s q = false ↔
      ¬ ((s ≠ 0 ∧ s + q = 0) ∨ (0 < s ∧ s + q < 0) ∨ (s < 0 ∧ 0 < s + q)) := by
  simp [completionLeg]

/-- Exhaustive characterization of one `updatePosTracker` call: it always
succeeds, leaves the tracker holding `currentShares + quantity` shares, and
touches the accumulators exactly when the fill drives the share count to 0 at
the end of some leg — in which case the update is a `recordTrade` of a flat
tracker. -/
theorem updatePosTracker_spec (pf rf : ProfitFn) (acc : AccumState) (t : PositionTracker)
    (p c : Rat) (q : Int) :
    ∃ acc1 t1, updatePosTracker pf rf acc t p c q = some (acc1, t1) ∧
      t1.shares = t.shares + q ∧
      (if completionLeg t.shares q then
        ∃ tm : PositionTracker, tm.shares = 0 ∧ acc1 = recordTrade pf rf acc tm
      else acc1 = acc) := by
  rcases lt_trichotomy t.shares 0 with hs | hs | hs
  · rcases lt_trichotomy (t.shares + q) 0 with hn | hn | hn
    · by_cases hq : q < 0
      · have hc : completionLeg t.shares q = false := by rw [completionLeg_false]; omega
        exact ⟨acc, _, updatePosTracker_short_add pf rf acc t p c q hs hq, by simp,
          by simp [hc]⟩
      · have hc : completionLeg t.shares q = false := by rw [completionLeg_false]; omega
        exact ⟨acc, _, updatePosTracker_short_reduce pf rf acc t p c q hs hq hn, by simp,
          by simp [hc]⟩
    · have hc : completionLeg t.shares q = true := by rw [completionLeg_true]; omega
      refine ⟨_, _, updatePosTracker_short_exit pf rf acc t p c q hs hn, by simp <;> omega, ?_⟩
      simp only [hc, if_true]
      exact ⟨_, by simp <;> omega, rfl⟩
    · have hc : completionLeg t.shares q = true := by rw [completionLeg_true]; omega
      refine ⟨_, _, updatePosTracker_short_flip pf rf acc t p c q hs hn, by simp <;> omega, ?_⟩
      simp only [hc, if_true]
      exact ⟨_, by simp <;> omega, rfl⟩
  · have hc : completionLeg t.shares q = false := by rw [completionLeg_false]; omega
    by_cases hq : 0 < q
    · exact ⟨acc, _, updatePosTracker_flat_buy pf rf acc t p c q hs hq, by simp <;> omega,
        by simp [hc]⟩
    · exact ⟨acc, _, updatePosTracker_flat_sell pf rf acc t p c q hs hq, by simp <;> omega,
        by simp [hc]⟩
  · rcases lt_trichotomy (t.shares + q) 0 with hn | hn | hn
    · have hc : completionLeg t.shares q = true := by rw [completionLeg_true]; omega
      refine ⟨_, _, updatePosTracker_long_flip pf rf acc t p c q hs hn, by simp <;> omega, ?_⟩
      simp only [hc, if_true]
      exact ⟨_, by simp, rfl⟩
    · have hc : completionLeg t.shares q = true := by rw [completionLeg_true]; omega
      refine ⟨_, _, updatePosTracker_long_exit pf rf acc t p c q hs hn, by simp <;> omega, ?_⟩
      simp only [hc, if_true]
      exact ⟨_, by simp, rfl⟩
    · by_cases hq : 0 < q
      · have hc : completionLeg t.shares q = false := by rw [completionLeg_false]; omega
        exact ⟨acc, _, updatePosTracker_long_add pf rf acc t p c q hs hq, by simp,
          by simp [hc]⟩
      · have hc : completionLeg t.shares q = false := by rw [completionLeg_false]; omega
        exact ⟨acc, _, updatePosTracker_long_reduce pf rf acc t p c q hs hq hn, by simp,
          by simp [hc]⟩

/-! ### Accumulator invariants -/

/-- The count-conservation invariant of the accumulator store. -/
def goodAcc (a : AccumState) : Prop :=
  a.all.length = a.profits.length + a.losses.length + a.evenTrades ∧
  a.allReturns.length = a.all.length ∧
  a.positiveReturns.length = a.profits.length ∧
  a.negativeReturns.length = a.losses.length

/-- Two rationals agree in sign. -/
def sameSign (x y : Rat) : Prop :=
  (0 < x ↔ 0 < y) ∧ (x < 0 ↔ y < 0)

/-- The sign invariant of the accumulator store: profits are positive, losses
negative, positive/negative returns likewise, and the paired `all` /
`allReturns` entries agree in sign elementwise. -/
def accSigns (a : AccumState) : Prop :=
  (∀ x ∈ a.profits, 0 < x) ∧ (∀ x ∈ a.losses, x < 0) ∧
  (∀ x ∈ a.positiveReturns, 0 < x) ∧ (∀ x ∈ a.negativeReturns, x < 0) ∧
  List.Forall₂ sameSign a.all a.allReturns

theorem recordTrade_goodAcc (pf rf : ProfitFn) (acc : AccumState) (t : PositionTracker)
    (h : goodAcc acc) : goodAcc (recordTrade pf rf acc t) := by
  obtain ⟨h1, h2, h3, h4⟩ := h
  unfold goodAcc
  simp only [recordTrade]
  split_ifs <;> simp <;> omega

theorem recordTrade_accSigns (pf rf : ProfitFn) (acc : AccumState) (t : PositionTracker)
    (hsign : ∀ ops, sameSign (pf ops 0) (rf ops 0)) (h : accSigns acc) :
    accSigns (recordTrade pf rf acc t) := by
  obtain ⟨h1, h2, h3, h4, h5⟩ := h
  obtain ⟨hp, hn⟩ := hsign t.ops
  unfold accSigns
  simp only [recordTrade]
  split_ifs with c1 c2
  · refine ⟨?_, h2, ?_, h4, ?_⟩
    · simp only [List.mem_append, List.mem_singleton]
      rintro x (hx | rfl)
      · exact h1 x hx
      · exact c1
    · simp only [List.mem_append, List.mem_singleton]
      rintro x (hx | rfl)
      · exact h3 x hx
      · exact hp.mp c1
    · exact List.rel_append h5 (List.Forall₂.cons ⟨hp, hn⟩ List.Forall₂.nil)
  · refine ⟨h1, ?_, h3, ?_, ?_⟩
    · simp only [List.mem_append, List.mem_singleton]
      rintro x (hx | rfl)
      · exact h2 x hx
      · exact c2
    · simp only [List.mem_append, List.mem_singleton]
      rintro x (hx | rfl)
      · exact h4 x hx
      · exact hn.mp c2
    · exact List.rel_append h5 (List.Forall₂.cons ⟨hp, hn⟩ List.Forall₂.nil)
  · exact ⟨h1, h2, h3, h4,
      List.rel_append h5 (List.Forall₂.cons ⟨hp, hn⟩ List.Forall₂.nil)⟩

/-! ### Dictionary lemmas -/

theorem lookupTracker_setTracker_self (m : List (String × PositionTracker)) (i : String)
    (t : PositionTracker) : lookupTracker (setTracker m i t) i = some t := by
  induction m with
  | nil => simp [setTracker, lookupTracker]
  | cons kv rest ih =>
    obtain ⟨k, t0⟩ := kv
    by_cases hk : k = i
    · simp [setTracker, lookupTracker, hk]
    · simp [setTracker, lookupTracker, hk, ih]

theorem ensureTracker_fst (m : List (String × PositionTracker)) (i : String) :
    (ensureTracker m i).1 = (lookupTracker m i).getD PositionTracker.new := by
  unfold ensureTracker
  cases lookupTracker m i <;> rfl

theorem trackerShares_eq (st : TradesState) (i : String) :
    trackerShares st i = ((lookupTracker st.posTrackers i).getD PositionTracker.new).shares := by
  unfold trackerShares
  cases h : lookupTracker st.posTrackers i <;> simp [h, PositionTracker.new]

theorem signedQty_of_recognized (o : Order) (h : o.action ≠ .unrecognized) :
    signedQty o.action o.quantity = some (signedDelta o) := by
  cases ha : o.action <;> simp [signedQty, signedDelta, ha] <;> simp [ha] at h

/-! ### One well-formed filled order -/

/-- Processing one well-formed filled order: it succeeds, the instrument's
share count moves by the signed delta, the total trade count grows by one
exactly when a leg ends at 0 shares, and the accumulators change only through
`recordTrade` on a flat tracker. -/
theorem onOrderUpdate_wf (pf rf : ProfitFn) (st : TradesState) (o : Order)
    (hwf : wellFormed o) :
    ∃ st', onOrderUpdate pf rf st o = .ok st' ∧
      trackerShares st' o.instrument = trackerShares st o.instrument + signedDelta o ∧
      st'.acc.all.length = st.acc.all.length +
        (if completionLeg (trackerShares st o.instrument) (signedDelta o) then 1 else 0) ∧
      (if completionLeg (trackerShares st o.instrument) (signedDelta o) then
        ∃ tm : PositionTracker, tm.shares = 0 ∧ st'.acc = recordTrade pf rf st.acc tm
      else st'.acc = st.acc) := by
  obtain ⟨hf, ha, hq⟩ := hwf
  have hshares : (ensureTracker st.posTrackers o.instrument).1.shares =
      trackerShares st o.instrument := by
    rw [ensureTracker_fst, trackerShares_eq]
  obtain ⟨acc1, t1, hrun, ht1, hacc⟩ :=
    updatePosTracker_spec pf rf st.acc (ensureTracker st.posTrackers o.instrument).1
      o.price o.commission (signedDelta o)
  refine ⟨{ acc := acc1,
            posTrackers := setTracker (ensureTracker st.posTrackers o.instrument).2
              o.instrument t1 }, ?_, ?_, ?_, ?_⟩
  · rw [onOrderUpdate, if_neg (by simp [hf]), signedQty_of_recognized o ha]
    dsimp only
    rw [hrun]
  · rw [trackerShares_eq]
    simp only [lookupTracker_setTracker_self, Option.getD_some]
    rw [ht1, hshares]
  · rw [hshares] at hacc
    cases hc : completionLeg (trackerShares st o.instrument) (signedDelta o)
    · rw [hc] at hacc
      simp only [Bool.false_eq_true, if_false] at hacc ⊢
      simp [hacc]
    · rw [hc] at hacc
      simp only [if_true] at hacc ⊢
      obtain ⟨tm, _, htm⟩ := hacc
      simp [htm, (recordTrade_lengths pf rf st.acc tm).1]
  · rw [hshares] at hacc
    exact hacc

/-! ### Process-level lemmas -/

/-- Whether a processing run ended in the fatal `shares == 0` assertion of
`updateTrades`. -/
def notFlatFatal : ProcResult → Bool
  | .fatal .trackerNotFlat _ => true
  | _ => false

theorem onOrderUpdate_acc (pf rf : ProfitFn) (st : TradesState) (o : Order) :
    (resultState (onOrderUpdate pf rf st o)).acc = st.acc ∨
    ∃ tm : PositionTracker, tm.shares = 0 ∧
      (resultState (onOrderUpdate pf rf st o)).acc = recordTrade pf rf st.acc tm := by
  rw [onOrderUpdate]
  by_cases hf : o.isFilled = false
  · rw [if_pos hf]; left; rfl
  · rw [if_neg hf]
    cases hsq : signedQty o.action o.quantity with
    | none => left; rfl
    | some q =>
      obtain ⟨acc1, t1, hrun, _, hacc⟩ := updatePosTracker_spec pf rf st.acc
        (ensureTracker st.posTrackers o.instrument).1 o.price o.commission q
      dsimp only
      rw [hrun]
      cases hc : completionLeg (ensureTracker st.posTrackers o.instrument).1.shares q
      · rw [hc] at hacc
        simp only [Bool.false_eq_true, if_false] at hacc
        left
        simpa [resultState] using hacc
      · rw [hc] at hacc
        simp only [if_true] at hacc
        obtain ⟨tm, htm0, htm⟩ := hacc
        right
        exact ⟨tm, htm0, by simpa [resultState] using htm⟩

theorem onOrderUpdate_no_assert (pf rf : ProfitFn) (st : TradesState) (o : Order) :
    notFlatFatal (onOrderUpdate pf rf st o) = false := by
  rw [onOrderUpdate]
  by_cases hf : o.isFilled = false
  · rw [if_pos hf]; rfl
  · rw [if_neg hf]
    cases hsq : signedQty o.action o.quantity with
    | none => rfl
    | some q =>
      obtain ⟨acc1, t1, hrun, _, _⟩ := updatePosTracker_spec pf rf st.acc
        (ensureTracker st.posTrackers o.instrument).1 o.price o.commission q
      dsimp only
      rw [hrun]
      rfl

/-- Every accumulator property preserved by `recordTrade` is preserved by a
whole processing run, whether it ends normally or in a fatal abort. -/
theorem processAll_acc_preserved (pf rf : ProfitFn) (P : AccumState → Prop)
    (hstep : ∀ acc tm, P acc → P (recordTrade pf rf acc tm)) :
    ∀ (orders : List Order) (st : TradesState), P st.acc →
      P (resultState (processAll pf rf st orders)).acc := by
  intro orders
  induction orders with
  | nil => intro st h; exact h
  | cons o rest ih =>
    intro st h
    have hstep1 : P (resultState (onOrderUpdate pf rf st o)).acc := by
      rcases onOrderUpdate_acc pf rf st o with heq | ⟨tm, _, heq⟩
      · rw [heq]; exact h
      · rw [heq]; exact hstep st.acc tm h
    rw [processAll]
    cases hr : onOrderUpdate pf rf st o with
    | ok st1 =>
      rw [hr] at hstep1
      exact ih st1 hstep1
    | fatal k st1 =>
      rw [hr] at hstep1
      exact hstep1

theorem goodAcc_init : goodAcc AccumState.init := by
  simp [goodAcc, AccumState.init]

theorem accSigns_init : accSigns AccumState.init := by
  refine ⟨?_, ?_, ?_, ?_, ?_⟩ <;> simp [AccumState.init]

theorem onOrderUpdate_unknown_eq (pf rf : ProfitFn) (st : TradesState) (o : Order)
    (hf : o.isFilled = true) (ha : o.action = .unrecognized) :
    onOrderUpdate pf rf st o =
      .fatal .unknownAction
        { acc := st.acc, posTrackers := (ensureTracker st.posTrackers o.instrument).2 } := by
  rw [onOrderUpdate, if_neg (by simp [hf]), ha]
  rfl

theorem ensureTracker_snd_none (m : List (String × PositionTracker)) (i : String)
    (h : lookupTracker m i = none) :
    (ensureTracker m i).2 = setTracker m i PositionTracker.new := by
  unfold ensureTracker
  rw [h]

/-! ### The claims -/

/-- C3: after every processed fill, for any sequence of fills, the total trade
count equals profitable + unprofitable + even counts, `allReturns` is as long
as `all`, `positiveReturns` as long as `profits`, and `negativeReturns` as
long as `losses`. -/
theorem count_conservation (pf rf : ProfitFn) (orders : List Order) :
    (resultState (processAll pf rf TradesState.init orders)).getCount =
        (resultState (processAll pf rf TradesState.init orders)).getProfitableCount +
        (resultState (processAll pf rf TradesState.init orders)).getUnprofitableCount +
        (resultState (processAll pf rf TradesState.init orders)).getEvenCount ∧
      (resultState (processAll pf rf TradesState.init orders)).acc.allReturns.length =
        (resultState (processAll pf rf TradesState.init orders)).getCount ∧
      (resultState (processAll pf rf TradesState.init orders)).acc.positiveReturns.length =
        (resultState (processAll pf rf TradesState.init orders)).getProfitableCount ∧
      (resultState (processAll pf rf TradesState.init orders)).acc.negativeReturns.length =
        (resultState (processAll pf rf TradesState.init orders)).getUnprofitableCount :=
  processAll_acc_preserved pf rf goodAcc
    (fun acc tm h => recordTrade_goodAcc pf rf acc tm h) orders TradesState.init goodAcc_init

/-- C4: at all times every entry of `profits` is positive and every entry of
`losses` negative, and — given that the tracker's reported net return agrees
in sign with its reported net profit (the spec's stated property of the
external tracker, whose profit arithmetic is not part of the analyzed
sources) — the recorded returns agree in sign with the paired profits
elementwise, and the `positiveReturns` / `negativeReturns` entries are
positive / negative respectively. -/
theorem sign_agreement (pf rf : ProfitFn)
    (hsign : ∀ ops, sameSign (pf ops 0) (rf ops 0)) (orders : List Order) :
    accSigns (resultState (processAll pf rf TradesState.init orders)).acc :=
  processAll_acc_preserved pf rf accSigns
    (fun acc tm h => recordTrade_accSigns pf rf acc tm hsign h) orders TradesState.init
    accSigns_init

/-- Witness for C4: a buy-then-sell run with a concrete tracker model whose
return always equals its profit. -/
theorem sign_agreement_witness :
    accSigns (resultState (processAll (fun _ _ => (1 : Rat)) (fun _ _ => (1 : Rat))
      TradesState.init
      [⟨true, "XYZ", 10, 0, 3, .buy⟩, ⟨true, "XYZ", 12, 0, 3, .sell⟩])).acc :=
  sign_agreement (fun _ _ => (1 : Rat)) (fun _ _ => (1 : Rat))
    (fun _ => ⟨Iff.rfl, Iff.rfl⟩)
    [⟨true, "XYZ", 10, 0, 3, .buy⟩, ⟨true, "XYZ", 12, 0, 3, .sell⟩]

/-- C5: along the fill-processing call path the Trade Recorder is only ever
invoked with a flat tracker: the `shares == 0` assertion of `__updateTrades`
(modelled as the `trackerNotFlat` fatal outcome) is unreachable for every
sequence of orders, from every reachable or unreachable analyzer state. -/
theorem recorder_flat_precondition (pf rf : ProfitFn) (st : TradesState)
    (orders : List Order) :
    notFlatFatal (processAll pf rf st orders) = false := by
  induction orders generalizing st with
  | nil => rfl
  | cons o rest ih =>
    rw [processAll]
    cases hr : onOrderUpdate pf rf st o with
    | ok st1 => exact ih st1
    | fatal k st1 =>
      have h := onOrderUpdate_no_assert pf rf st o
      rw [hr] at h
      exact h

/-- C6: a filled order whose action tag is outside the recognized four-valued
set aborts fatally, and the accumulator store is exactly the one before the
event. -/
theorem unknown_action_rejected (pf rf : ProfitFn) (st : TradesState) (o : Order)
    (hf : o.isFilled = true) (ha : o.action = .unrecognized) :
    onOrderUpdate pf rf st o =
      .fatal .unknownAction
        { acc := st.acc, posTrackers := (ensureTracker st.posTrackers o.instrument).2 } :=
  onOrderUpdate_unknown_eq pf rf st o hf ha

/-- Witness for C6. -/
theorem unknown_action_rejected_witness :
    onOrderUpdate (fun _ _ => (1 : Rat)) (fun _ _ => (1 : Rat)) TradesState.init
      ⟨true, "XYZ", 10, 1, 5, .unrecognized⟩ =
      .fatal .unknownAction
        { acc := AccumState.init,
          posTrackers := (ensureTracker TradesState.init.posTrackers "XYZ").2 } :=
  unknown_action_rejected (fun _ _ => (1 : Rat)) (fun _ _ => (1 : Rat)) TradesState.init
    ⟨true, "XYZ", 10, 1, 5, .unrecognized⟩ rfl rfl

/-- C7: an order-update event whose order is not filled is a complete no-op:
the analyzer state (ledger included) is returned unchanged. -/
theorem unfilled_order_noop (pf rf : ProfitFn) (st : TradesState) (o : Order)
    (hf : o.isFilled = false) :
    onOrderUpdate pf rf st o = .ok st := by
  rw [onOrderUpdate, if_pos hf]

/-- Witness for C7: an unfilled order for an instrument absent from the
ledger leaves the initial state untouched. -/
theorem unfilled_order_noop_witness :
    onOrderUpdate (fun _ _ => (1 : Rat)) (fun _ _ => (1 : Rat)) TradesState.init
      ⟨false, "XYZ", 10, 1, 5, .buy⟩ = .ok TradesState.init :=
  unfilled_order_noop (fun _ _ => (1 : Rat)) (fun _ _ => (1 : Rat)) TradesState.init
    ⟨false, "XYZ", 10, 1, 5, .buy⟩ rfl

/-- C9: on a filled order with an unrecognized action tag for an instrument
with no ledger entry, the fatal abort happens after the ledger entry is
created: at the abort the accumulators are unchanged but the ledger now holds
a fresh tracker for the instrument. -/
theorem unknown_action_ledger_mutation (pf rf : ProfitFn) (st : TradesState) (o : Order)
    (hf : o.isFilled = true) (ha : o.action = .unrecognized)
    (habs : lookupTracker st.posTrackers o.instrument = none) :
    ∃ st1, onOrderUpdate pf rf st o = .fatal .unknownAction st1 ∧
      st1.acc = st.acc ∧
      lookupTracker st1.posTrackers o.instrument = some PositionTracker.new := by
  refine ⟨_, onOrderUpdate_unknown_eq pf rf st o hf ha, rfl, ?_⟩
  rw [ensureTracker_snd_none st.posTrackers o.instrument habs]
  exact lookupTracker_setTracker_self st.posTrackers o.instrument PositionTracker.new

/-- Witness for C9. -/
theorem unknown_action_ledger_mutation_witness :
    ∃ st1, onOrderUpdate (fun _ _ => (1 : Rat)) (fun _ _ => (1 : Rat)) TradesState.init
        ⟨true, "XYZ", 10, 1, 5, .unrecognized⟩ = .fatal .unknownAction st1 ∧
      st1.acc = TradesState.init.acc ∧
      lookupTracker st1.posTrackers "XYZ" = some PositionTracker.new :=
  unknown_action_ledger_mutation (fun _ _ => (1 : Rat)) (fun _ _ => (1 : Rat))
    TradesState.init ⟨true, "XYZ", 10, 1, 5, .unrecognized⟩ rfl rfl rfl

/-- C10: when a trade completes with net profit exactly 0, the recorder
appends the net return to `allReturns` and increments the even-trade counter,
while `profits`, `losses`, `positiveReturns` and `negativeReturns` are left
unchanged — membership in the signed return sequences is decided by the
profit's sign alone, never by the return's own sign. -/
theorem even_trade_membership (pf rf : ProfitFn) (acc : AccumState) (t : PositionTracker)
    (h0 : t.shares = 0) (hp : pf t.ops 0 = 0) :
    updateTrades pf rf acc t =
      some ({ acc with all := acc.all ++ [0]
                       allReturns := acc.allReturns ++ [rf t.ops 0]
                       evenTrades := acc.evenTrades + 1 }, t.rebase 0) := by
  rw [updateTrades_eq pf rf acc t h0]
  simp [recordTrade, hp]

/-- Witness for C10: an even trade whose net return is nonzero still goes
only to `allReturns` and the even counter. -/
theorem even_trade_membership_witness :
    updateTrades (fun _ _ => (0 : Rat)) (fun _ _ => (7 : Rat)) AccumState.init
      PositionTracker.new =
      some ({ AccumState.init with all := [0]
                                   allReturns := [7]
                                   evenTrades := 1 }, PositionTracker.new.rebase 0) := by
  rw [even_trade_membership (fun _ _ => (0 : Rat)) (fun _ _ => (7 : Rat)) AccumState.init
    PositionTracker.new rfl rfl]
  decide

/-- C1: processing a well-formed filled order moves the instrument's share
count by the signed delta, and a trade completion happens during the fill
exactly when the share count reaches 0 at the end of some leg (a full
exit/cover, or the first leg of a flip — `completionLeg`); consequently a
fill sequence on one instrument that never drives the share count to 0 at any
leg boundary completes zero trades. -/
theorem trade_completion_iff_leg_flat (pf rf : ProfitFn) :
    (∀ (st : TradesState) (o : Order), wellFormed o →
      ∃ st', onOrderUpdate pf rf st o = .ok st' ∧
        trackerShares st' o.instrument = trackerShares st o.instrument + signedDelta o ∧
        st'.getCount = st.getCount +
          (if completionLeg (trackerShares st o.instrument) (signedDelta o) then 1 else 0)) ∧
    (∀ (i : String) (orders : List Order) (st : TradesState),
      (∀ o ∈ orders, wellFormed o ∧ o.instrument = i) →
      neverFlat (trackerShares st i) (orders.map signedDelta) = true →
      ∃ st', processAll pf rf st orders = .ok st' ∧ st'.getCount = st.getCount) := by
  constructor
  · intro st o hwf
    obtain ⟨st', h1, h2, h3, _⟩ := onOrderUpdate_wf pf rf st o hwf
    exact ⟨st', h1, h2, h3⟩
  · intro i orders
    induction orders with
    | nil => intro st _ _; exact ⟨st, rfl, rfl⟩
    | cons o rest ih =>
      intro st hwf hnf
      obtain ⟨hwfo, hio⟩ := hwf o (by simp)
      obtain ⟨st1, h1, h2, h3, _⟩ := onOrderUpdate_wf pf rf st o hwfo
      rw [List.map_cons] at hnf
      simp only [neverFlat, Bool.and_eq_true, Bool.not_eq_true'] at hnf
      obtain ⟨hc, hnf'⟩ := hnf
      rw [hio] at h2 h3
      rw [hc] at h3
      simp only [Bool.false_eq_true, if_false, add_zero] at h3
      obtain ⟨st2, hrun2, hcnt2⟩ :=
        ih st1 (fun o' ho' => hwf o' (by simp [ho'])) (by rw [h2]; exact hnf')
      refine ⟨st2, ?_, by rw [hcnt2]; exact h3⟩
      rw [processAll, h1]
      exact hrun2

/-- Witness for C1: a buy of 5 then a sell of 3 (shares 0 → 5 → 2, never flat
at a leg boundary) completes zero trades; and one application of the per-fill
part to the first order. -/
theorem trade_completion_iff_leg_flat_witness :
    (∃ st', processAll (fun _ _ => (1 : Rat)) (fun _ _ => (1 : Rat)) TradesState.init
        [⟨true, "XYZ", 10, 1, 5, .buy⟩, ⟨true, "XYZ", 11, 1, 3, .sell⟩] = .ok st' ∧
      st'.getCount = TradesState.init.getCount) ∧
    (∃ st', onOrderUpdate (fun _ _ => (1 : Rat)) (fun _ _ => (1 : Rat)) TradesState.init
        ⟨true, "XYZ", 10, 1, 5, .buy⟩ = .ok st' ∧
      trackerShares st' "XYZ" = trackerShares TradesState.init "XYZ" +
        signedDelta ⟨true, "XYZ", 10, 1, 5, .buy⟩ ∧
      st'.getCount = TradesState.init.getCount +
        (if completionLeg (trackerShares TradesState.init "XYZ")
          (signedDelta ⟨true, "XYZ", 10, 1, 5, .buy⟩) then 1 else 0)) :=
  ⟨(trade_completion_iff_leg_flat (fun _ _ => (1 : Rat)) (fun _ _ => (1 : Rat))).2 "XYZ"
      [⟨true, "XYZ", 10, 1, 5, .buy⟩, ⟨true, "XYZ", 11, 1, 3, .sell⟩] TradesState.init
      (by decide) (by decide),
    (trade_completion_iff_leg_flat (fun _ _ => (1 : Rat)) (fun _ _ => (1 : Rat))).1
      TradesState.init ⟨true, "XYZ", 10, 1, 5, .buy⟩ (by decide)⟩

/-- C2: a flip fill issues exactly two tracker operations: leg 1 closes the
current position with per-leg commission `totalCommission / currentShares`
and ends flat, the Trade Recorder fires exactly once there (the trade count
grows by exactly one, on the accumulators as they stand after leg 1), and
leg 2 opens `|newShares|` with per-leg commission
`totalCommission / |newShares|`, leaving `newShares` open.  First conjunct:
long-to-short; second conjunct: the mirrored short-to-long case. -/
theorem flip_two_legs_commission_split (pf rf : ProfitFn) (acc : AccumState)
    (t : PositionTracker) (p c : Rat) (q : Int) :
    (0 < t.shares → t.shares + q < 0 →
      updatePosTracker pf rf acc t p c q =
        some (recordTrade pf rf acc (t.sell t.shares p (c / (t.shares : Rat))),
          ((t.sell t.shares p (c / (t.shares : Rat))).rebase 0).sell
            ((t.shares + q) * -1) p (c / (((t.shares + q) * -1 : Int) : Rat))) ∧
      (t.sell t.shares p (c / (t.shares : Rat))).shares = 0 ∧
      (recordTrade pf rf acc (t.sell t.shares p (c / (t.shares : Rat)))).all.length =
        acc.all.length + 1 ∧
      (((t.sell t.shares p (c / (t.shares : Rat))).rebase 0).sell
        ((t.shares + q) * -1) p (c / (((t.shares + q) * -1 : Int) : Rat))).shares =
        t.shares + q) ∧
    (t.shares < 0 → 0 < t.shares + q →
      updatePosTracker pf rf acc t p c q =
        some (recordTrade pf rf acc
            (t.buy (t.shares * -1) p (c / ((t.shares * -1 : Int) : Rat))),
          ((t.buy (t.shares * -1) p (c / ((t.shares * -1 : Int) : Rat))).rebase 0).buy
            (t.shares + q) p (c / ((t.shares + q : Int) : Rat))) ∧
      (t.buy (t.shares * -1) p (c / ((t.shares * -1 : Int) : Rat))).shares = 0 ∧
      (recordTrade pf rf acc
          (t.buy (t.shares * -1) p (c / ((t.shares * -1 : Int) : Rat)))).all.length =
        acc.all.length + 1 ∧
      (((t.buy (t.shares * -1) p (c / ((t.shares * -1 : Int) : Rat))).rebase 0).buy
        (t.shares + q) p (c / ((t.shares + q : Int) : Rat))).shares = t.shares + q) := by
  constructor
  · intro hs hn
    exact ⟨updatePosTracker_long_flip pf rf acc t p c q hs hn, by simp,
      (recordTrade_lengths pf rf acc (t.sell t.shares p (c / (t.shares : Rat)))).1,
      by simp <;> omega⟩
  · intro hs hn
    exact ⟨updatePosTracker_short_flip pf rf acc t p c q hs hn, by simp <;> omega,
      (recordTrade_lengths pf rf acc
        (t.buy (t.shares * -1) p (c / ((t.shares * -1 : Int) : Rat)))).1,
      by simp <;> omega⟩

/-- Witness for C2: from 10 long shares, a single sell of 15 with total
commission 30 produces exactly one completed trade, leaves -5 shares, and the
two legs carry commissions 30/10 = 3 and 30/5 = 6. -/
theorem flip_two_legs_commission_split_witness :
    ((0 : Int) < (⟨10, []⟩ : PositionTracker).shares ∧
      (⟨10, []⟩ : PositionTracker).shares + (-15) < 0) ∧
    (30 / ((10 : Int) : Rat) = 3 ∧ 30 / ((5 : Int) : Rat) = 6) ∧
    (updatePosTracker (fun _ _ => (1 : Rat)) (fun _ _ => (1 : Rat)) AccumState.init
        ⟨10, []⟩ 100 30 (-15) =
      some (recordTrade (fun _ _ => (1 : Rat)) (fun _ _ => (1 : Rat)) AccumState.init
          (PositionTracker.sell ⟨10, []⟩ 10 100 (30 / ((10 : Int) : Rat))),
        ((PositionTracker.sell ⟨10, []⟩ 10 100 (30 / ((10 : Int) : Rat))).rebase 0).sell
          5 100 (30 / ((5 : Int) : Rat))) ∧
      (PositionTracker.sell ⟨10, []⟩ 10 100 (30 / ((10 : Int) : Rat))).shares = 0 ∧
      (recordTrade (fun _ _ => (1 : Rat)) (fun _ _ => (1 : Rat)) AccumState.init
          (PositionTracker.sell ⟨10, []⟩ 10 100 (30 / ((10 : Int) : Rat)))).all.length =
        AccumState.init.all.length + 1 ∧
      (((PositionTracker.sell ⟨10, []⟩ 10 100 (30 / ((10 : Int) : Rat))).rebase 0).sell
        5 100 (30 / ((5 : Int) : Rat))).shares = -5) :=
  ⟨⟨by decide, by decide⟩, ⟨by norm_num, by norm_num⟩,
    (flip_two_legs_commission_split (fun _ _ => (1 : Rat)) (fun _ _ => (1 : Rat))
      AccumState.init ⟨10, []⟩ 100 30 (-15)).1 (by decide) (by decide)⟩

/-- C8: for every positive quantity `N`, prices and commissions, a filled buy
of `N` followed by a filled sell of `N` on the same instrument, starting from
a flat or absent ledger entry, completes exactly one trade and leaves the
instrument's share count at 0. -/
theorem flat_roundtrip_single_trade (pf rf : ProfitFn) (st : TradesState) (i : String)
    (N : Int) (p1 c1 p2 c2 : Rat) (hN : 0 < N) (hflat : trackerShares st i = 0) :
    ∃ st', processAll pf rf st
        [⟨true, i, p1, c1, N, .buy⟩, ⟨true, i, p2, c2, N, .sell⟩] = .ok st' ∧
      st'.getCount = st.getCount + 1 ∧ trackerShares st' i = 0 := by
  obtain ⟨st1, h1, hsh1, hcnt1, _⟩ := onOrderUpdate_wf pf rf st ⟨true, i, p1, c1, N, .buy⟩
    ⟨rfl, by simp [Order.action], hN⟩
  obtain ⟨st2, h2, hsh2, hcnt2, _⟩ := onOrderUpdate_wf pf rf st1 ⟨true, i, p2, c2, N, .sell⟩
    ⟨rfl, by simp [Order.action], hN⟩
  simp only [Order.instrument, signedDelta] at hsh1 hcnt1 hsh2 hcnt2
  rw [hflat] at hsh1 hcnt1
  have hcl1 : completionLeg 0 N = false := by rw [completionLeg_false]; omega
  simp only [hcl1, Bool.false_eq_true, if_false, add_zero] at hcnt1
  simp only [hsh1] at hsh2 hcnt2
  have hcl2 : completionLeg (0 + N) (N * -1) = true := by rw [completionLeg_true]; omega
  simp only [hcl2, if_true] at hcnt2
  refine ⟨st2, ?_, ?_, by rw [hsh2]; omega⟩
  · rw [processAll, h1]
    dsimp only
    rw [processAll, h2]
    dsimp only
    rw [processAll]
  · show st2.acc.all.length = st.acc.all.length + 1
    rw [hcnt2, hcnt1]

/-- Witness for C8: buy 3 then sell 3 from the empty ledger. -/
theorem flat_roundtrip_single_trade_witness :
    (0 : Int) < 3 ∧
    ∃ st', processAll (fun _ _ => (1 : Rat)) (fun _ _ => (1 : Rat)) TradesState.init
        [⟨true, "XYZ", 10, 1, 3, .buy⟩, ⟨true, "XYZ", 12, 1, 3, .sell⟩] = .ok st' ∧
      st'.getCount = TradesState.init.getCount + 1 ∧ trackerShares st' "XYZ" = 0 :=
  ⟨by decide, flat_roundtrip_single_trade (fun _ _ => (1 : Rat)) (fun _ _ => (1 : Rat))
    TradesState.init "XYZ" 3 10 1 12 1 (by decide) (by decide)⟩

end Trades
